import Mathlib

set_option maxRecDepth 16000

/-!
Verification of the `PointsWithLabels` scatterplot renderer
(owid-grapher, `PointsWithLabels.tsx`).

The TypeScript component is shallowly embedded below: numbers are modelled
as rationals, the external `Math.sqrt` and `Math.PI` (whose exact
floating-point values never decide any of the verified properties) are
abstracted into a context record, axis scales are abstract placement
functions as the specification treats them, and the mutable label graph of
the original is modelled by explicit state passing.
-/

namespace OwidScatter

/-- JavaScript `a || b` on numbers: `0` is the only falsy numeric value
that occurs in this code (`v.size || 1`, `d.size || 1`). -/
def jsOr (a b : ℚ) : ℚ := if a = 0 then b else a

/-- JavaScript `a || b` on strings (`d.color || defaultColorScale(d.key)`):
the empty string is falsy. -/
def jsOrS (a b : String) : String := if a = "" then b else a

/-! ## Geometry utilities

`Vector2` and `Bounds` are imported by the component from sibling modules
that the specification treats as a given 2-D vector / rectangle utility
library; they are modelled from the spec below. -/

/-- Modelled from the spec: the 2-D vector utility (`Vector2.ts`),
"2-D vector arithmetic". -/
structure Vector2 where
  x : ℚ
  y : ℚ
deriving DecidableEq

namespace Vector2

def zero : Vector2 := ⟨0, 0⟩

/-- Modelled from the spec: the upward unit direction in screen
coordinates (y grows downward), "straight up if only one value". -/
def up : Vector2 := ⟨0, -1⟩

def add (a b : Vector2) : Vector2 := ⟨a.x + b.x, a.y + b.y⟩

def subtract (a b : Vector2) : Vector2 := ⟨a.x - b.x, a.y - b.y⟩

def times (a : Vector2) (c : ℚ) : Vector2 := ⟨a.x * c, a.y * c⟩

def dot (a b : Vector2) : ℚ := a.x * b.x + a.y * b.y

def distanceSq (a b : Vector2) : ℚ := (a.x - b.x)^2 + (a.y - b.y)^2

/-- Modelled from the spec: vector magnitude; the square root of the
external math library is the abstract function `sqrt`. -/
def magnitude (sqrt : ℚ → ℚ) (v : Vector2) : ℚ := sqrt (v.x^2 + v.y^2)

/-- Modelled from the spec: unit vector in the direction of `v`. -/
def normalize (sqrt : ℚ → ℚ) (v : Vector2) : Vector2 :=
  let m := magnitude sqrt v
  if m = 0 then zero else ⟨v.x / m, v.y / m⟩

def distance (sqrt : ℚ → ℚ) (a b : Vector2) : ℚ := sqrt (distanceSq a b)

/-- Modelled from the spec: "both perpendicular candidates" of a vector. -/
def normals (v : Vector2) : List Vector2 := [⟨-v.y, v.x⟩, ⟨v.y, -v.x⟩]

/-- Modelled from the spec: squared distance from a point to a line
segment ("point-to-segment squared distance"). -/
def distanceFromPointToLineSq (p a b : Vector2) : ℚ :=
  let l2 := distanceSq a b
  if l2 = 0 then distanceSq p a
  else
    let t := dot (subtract p a) (subtract b a) / l2
    let t' := max 0 (min 1 t)
    distanceSq p (add a (times (subtract b a) t'))

end Vector2

/-- Modelled from the spec: axis-aligned bounds (`Bounds.ts`),
"axis-aligned bounds with intersection/containment". -/
structure Bounds where
  x : ℚ
  y : ℚ
  width : ℚ
  height : ℚ
deriving DecidableEq

namespace Bounds

def left (b : Bounds) : ℚ := b.x
def right (b : Bounds) : ℚ := b.x + b.width
def top (b : Bounds) : ℚ := b.y
def bottom (b : Bounds) : ℚ := b.y + b.height

/-- Modelled from the spec: axis-aligned rectangle intersection test. -/
def intersects (a b : Bounds) : Bool :=
  decide (a.left ≤ b.right) && decide (b.left ≤ a.right) &&
  decide (a.top ≤ b.bottom) && decide (b.top ≤ a.bottom)

/-- `bounds.extend({x: v})`: copy with the `x` field replaced. -/
def extendX (b : Bounds) (v : ℚ) : Bounds := { b with x := v }

/-- `bounds.extend({y: v})`: copy with the `y` field replaced. -/
def extendY (b : Bounds) (v : ℚ) : Bounds := { b with y := v }

/-- Modelled from the spec: "text-bounds measurement given string + font
size" (`Bounds.forText`).  An arbitrary deterministic measurement: the
baseline anchor is at `(x, y)`, the box sits above the baseline with
height `fontSize` and width proportional to the text length.  No verified
property depends on the particular measurement function. -/
def forText (text : String) (x y fontSize : ℚ) : Bounds :=
  ⟨x, y - fontSize, fontSize * (text.length : ℚ) / 2, fontSize⟩

end Bounds

/-! ## Stable sort

`_.sortBy(list, keyFn)` from lodash: a stable ascending sort by a key.
It is modelled as an insertion sort that inserts each element after all
earlier elements whose key compares `≤` to it, which is stable and sorts
ascending.  The comparison is an explicit boolean `le` so that the same
definition serves rational keys and the optional-distance keys of
`onMouseMove` (where lodash sorts `undefined` last). -/

section StableSort

variable {α κ : Type} (f : α → κ) (le : κ → κ → Bool)

/-- Insert `a` after every element whose key is `≤` the key of `a`. -/
def insLE (a : α) : List α → List α
  | [] => [a]
  | b :: bs => if le (f b) (f a) then b :: insLE a bs else a :: b :: bs

/-- Stable ascending sort by key, modelling lodash `_.sortBy`. -/
def stableSortBy : List α → List α
  | [] => []
  | a :: as => insLE f le a (stableSortBy as)

end StableSort

/-- Boolean `≤` on rational keys. -/
def qle (a b : ℚ) : Bool := decide (a ≤ b)


/-- `≤` on optional rational keys, `none` (JS `undefined`) sorting last,
as lodash does. -/
def optLE (a b : Option ℚ) : Bool :=
  match a, b with
  | _, none => true
  | none, some _ => false
  | some x, some y => decide (x ≤ y)

/-! ## The collision loop

The "main collision detection" double loop of `renderData`
(`PointsWithLabels.tsx`): over a priority-sorted list, each not-yet-hidden
label hides every later not-yet-hidden label it intersects.  The loop is
generic in the element type so that it can run both on plain labels and on
index-tagged labels (the tags model JS object identity, which the source
relies on to push `isHidden` mutations back into the per-series label
lists).  The structural `fuel` argument (instantiated with the list
length, which every iteration preserves) makes the definition computable
by the kernel. -/

section Resolve

variable {α : Type} (bnds : α → Bounds) (hidden : α → Bool) (hide : α → α)

/-- One outer-loop iteration: `l1` hides every later visible label whose
bounds intersect its own (`if (l1.bounds.intersects(l2.bounds)) l2.isHidden
= true`). -/
def resolveStep (l1 : α) (rest : List α) : List α :=
  rest.map fun l2 =>
    if !hidden l2 && (bnds l1).intersects (bnds l2) then hide l2 else l2

/-- The outer loop, structurally recursive on `fuel`. -/
def resolveGo : Nat → List α → List α
  | 0, ls => ls
  | _ + 1, [] => []
  | n + 1, l1 :: rest =>
    if hidden l1 then l1 :: resolveGo n rest
    else l1 :: resolveGo n (resolveStep bnds hidden hide l1 rest)

/-- The whole collision pass over a priority-sorted list. -/
def resolveCollisions (ls : List α) : List α :=
  resolveGo bnds hidden hide ls.length ls

end Resolve

/-! ## Data model

The component's input and derived record types (`ScatterSeries`,
`ScatterValue`, `ScatterRenderValue`, `ScatterRenderSeries`,
`ScatterLabel`).  Numbers are rationals; the optional `isHover` /
`isFocus` / `isForeground` / `isHidden` / `isStart` / `isMid` / `isEnd`
booleans of the source default to `false` (JS `undefined` is falsy).
`ScatterLabel.series` is a live back-reference in the source, read only
for `isHover` / `isFocus`; it is modelled by copying those two flags into
the label (the flags are fixed before any label is created). -/

/-- `ScatterValue`: one raw time-indexed sample of a series. -/
structure ScatterValue where
  x : ℚ
  y : ℚ
  size : ℚ
  year : ℤ
  timeX : ℤ
  timeY : ℤ
deriving DecidableEq

/-- `ScatterSeries`: one raw input series. -/
structure ScatterSeries where
  color : String
  key : String
  label : String
  size : ℚ
  values : List ScatterValue
deriving DecidableEq

/-- `ScatterRenderValue`: a screen-space value. -/
structure ScatterRenderValue where
  position : Vector2
  size : ℚ
  fontSize : ℚ
  timeX : ℤ
  timeY : ℤ
deriving DecidableEq

/-- `ScatterLabel`.  `seriesHover` / `seriesFocus` stand for the
`l.series.isHover` / `l.series.isFocus` reads through the back-reference. -/
structure ScatterLabel where
  text : String
  fontSize : ℚ
  pos : Vector2
  bounds : Bounds
  seriesHover : Bool := false
  seriesFocus : Bool := false
  isHidden : Bool := false
  isStart : Bool := false
  isMid : Bool := false
  isEnd : Bool := false
deriving DecidableEq

/-- `ScatterRenderSeries`.  The source also stores `allLabels`
(`filter([startLabel].concat(midLabels).concat([endLabel]))`), whose
elements alias `startLabel` / `midLabels` / `endLabel`; because of that
aliasing it is modelled as the derived function `allLabelsOf` below
instead of a (necessarily desynchronised) duplicate field. -/
structure ScatterRenderSeries where
  key : String
  displayKey : String
  color : String
  size : ℚ
  values : List ScatterRenderValue
  text : String
  isHover : Bool := false
  isFocus : Bool := false
  isForeground : Bool := false
  offsetVector : Vector2 := Vector2.zero
  startLabel : Option ScatterLabel := none
  midLabels : List ScatterLabel := []
  endLabel : Option ScatterLabel := none
deriving DecidableEq

/-- `series.allLabels = _.filter([startLabel].concat(midLabels)
.concat([endLabel]))`: the labels present, in start / mid / end order
(`filter` drops the `undefined` entries). -/
def allLabelsOf (s : ScatterRenderSeries) : List ScatterLabel :=
  s.startLabel.toList ++ s.midLabels ++ s.endLabel.toList

/-- Fallback render value for the partial indexing of the source
(`series.values[...]`, `_.last`), which would throw on an empty list. -/
def dfltRV : ScatterRenderValue :=
  ⟨Vector2.zero, 0, 0, 0, 0⟩

/-- The component's props (`PointsWithLabelsProps`): the axis scales are
already restricted to the plot bounds, so they appear here only through
the context's abstract `place` functions. -/
structure Props where
  data : List ScatterSeries
  hoverKeys : List String
  focusKeys : List String
  bounds : Bounds
  sizeDomain : ℚ × ℚ
deriving DecidableEq

/-- External, non-rational ingredients: `Math.sqrt`, `Math.PI`, the two
axis-scale `place` mappings (treated by the spec as opaque injected
mappings), and the default ordinal color scale.  All verified properties
hold for every choice of these. -/
structure Ctx where
  sqrt : ℚ → ℚ
  pi : ℚ
  xPlace : ℚ → ℚ
  yPlace : ℚ → ℚ
  defaultColor : String → String

/-! ## Computed helpers of the component -/

/-- `get hoverKeys`: the prop hover keys plus the transient mouse hover
key. -/
def hoverKeysOf (p : Props) (hoverKey : Option String) : List String :=
  p.hoverKeys ++ hoverKey.toList

/-- `get isConnected`: some series has more than one value. -/
def isConnected (p : Props) : Bool :=
  p.data.any fun series => 1 < series.values.length

/-- `get isSubtleForeground`: more than one focused key and some series
with more than two values. -/
def isSubtleForeground (p : Props) : Bool :=
  decide (1 < p.focusKeys.length) &&
    p.data.any fun series => 2 < series.values.length

/-- `d3.scaleLinear().range([r0, r1]).domain([d0, d1])` applied to `t`. -/
def linScale (d0 d1 r0 r1 t : ℚ) : ℚ :=
  r0 + (t - d0) * (r1 - r0) / (d1 - d0)

/-- `get sizeScale`: linear scale with range `[10, 1000]` over the size
domain. -/
def sizeScale (p : Props) (t : ℚ) : ℚ :=
  linScale p.sizeDomain.1 p.sizeDomain.2 10 1000 t

/-- `get fontScale`: linear scale with range `[10, 13]` over the size
domain. -/
def fontScale (p : Props) (t : ℚ) : ℚ :=
  linScale p.sizeDomain.1 p.sizeDomain.2 10 13 t

/-- `makeSafeForCSS` (`Util.ts`).  Modelled from the spec: non-alphanumeric
characters replaced. -/
def makeSafeForCSS (s : String) : String :=
  String.map (fun c => if c.isAlphanum then c else '-') s

/-- `labelPriority`: `fontSize + 10000·isHover + 1000·isFocus +
100·isEnd`. -/
def labelPriority (l : ScatterLabel) : ℚ :=
  l.fontSize
    + (if l.seriesHover then 10000 else 0)
    + (if l.seriesFocus then 1000 else 0)
    + (if l.isEnd then 100 else 0)

/-! ## Render-Data Builder (`initialRenderData`) -/

/-- The per-value transform inside `initialRenderData`: place and floor
the position, convert the area-scaled size to a radius, and derive the
font size (the source reads `d.size`, the series-level magnitude, here —
not `v.size`). -/
def buildValue (ctx : Ctx) (p : Props) (d : ScatterSeries)
    (v : ScatterValue) : ScatterRenderValue where
  position := ⟨(⌊ctx.xPlace v.x⌋ : ℤ), (⌊ctx.yPlace v.y⌋ : ℤ)⟩
  size := ctx.sqrt (sizeScale p (jsOr v.size 1) / ctx.pi)
  fontSize := fontScale p (jsOr d.size 1)
  timeX := v.timeX
  timeY := v.timeY

/-- The per-series transform inside `initialRenderData`. -/
def buildSeries (ctx : Ctx) (p : Props) (d : ScatterSeries) :
    ScatterRenderSeries :=
  let values := d.values.map (buildValue ctx p d)
  { key := d.key
    displayKey := "key-" ++ makeSafeForCSS d.key
    color := jsOrS d.color (ctx.defaultColor d.key)
    size := ((values.getLast?).getD dfltRV).size
    values := values
    text := d.label
    midLabels := []
    offsetVector := Vector2.zero }

/-- `get initialRenderData`: build every series, sorted ascending by
series size (`.sortBy('size')`). -/
def initialRenderData (ctx : Ctx) (p : Props) : List ScatterRenderSeries :=
  stableSortBy (fun s => s.size) qle (p.data.map (buildSeries ctx p))

/-! ## Label Synthesizer (`makeStartLabel`, `makeMidLabels`,
`makeEndLabel`) -/

/-- `makeStartLabel`: the start-year label of a foreground series with at
least two values, pushed 5px backward off the path start. -/
def makeStartLabel (ctx : Ctx) (subtle : Bool)
    (series : ScatterRenderSeries) : Option ScatterLabel :=
  if !series.isForeground || series.values.length ≤ 1 then none
  else
    let fontSize : ℚ :=
      if series.isForeground then (if subtle then 8 else 9) else 7
    let firstValue := (series.values[0]?).getD dfltRV
    let nextValue := (series.values[1]?).getD dfltRV
    let nextSegment := nextValue.position.subtract firstValue.position
    let pos := firstValue.position.subtract
      ((nextSegment.normalize ctx.sqrt).times 5)
    let bounds0 := Bounds.forText (toString firstValue.timeY) pos.x pos.y
      fontSize
    let bounds1 :=
      if pos.x < firstValue.position.x then
        Bounds.mk (bounds0.x - bounds0.width + 2) bounds0.y bounds0.width
          bounds0.height
      else bounds0
    let bounds2 :=
      if pos.y > firstValue.position.y then
        Bounds.mk bounds1.x (bounds1.y + bounds1.height / 2) bounds1.width
          bounds1.height
      else bounds1
    some
      { text := toString firstValue.timeY
        fontSize := fontSize
        pos := firstValue.position
        bounds := bounds2
        seriesHover := series.isHover
        seriesFocus := series.isFocus
        isStart := true }

/-- The body of the `makeMidLabels` map, at slice index `i` with value
`v` (the source indexes `series.values` with the slice index, so `prevPos`
is `values[i-1]` — one before the label's own point — and `nextPos` is
`values[i+1]`, the label's own point; embedded as written). -/
def makeMidLabel (ctx : Ctx) (fontSize : ℚ)
    (series : ScatterRenderSeries) (i : Nat) (v : ScatterRenderValue) :
    ScatterLabel :=
  let prevPos : Option Vector2 :=
    if 0 < i then some ((series.values[i-1]?).getD dfltRV).position else none
  let nextPos := ((series.values[i+1]?).getD dfltRV).position
  let nextSegment := nextPos.subtract v.position
  let pos :=
    match prevPos with
    | some prev =>
      let prevSegment := v.position.subtract prev
      let normals :=
        ((prevSegment.add nextSegment).normalize ctx.sqrt).normals.map
          (fun x : Vector2 => x.times 5)
      let potentialSpots := normals.map (fun n => v.position.add n)
      (stableSortBy
        (fun q => -(Vector2.distance ctx.sqrt q prev
          + Vector2.distance ctx.sqrt q nextPos))
        qle potentialSpots).headD Vector2.zero
    | none => v.position.subtract ((nextSegment.normalize ctx.sqrt).times 5)
  let bounds0 := Bounds.forText (toString v.timeY) pos.x pos.y fontSize
  let bounds1 :=
    if pos.x < v.position.x then
      Bounds.mk (bounds0.x - bounds0.width + 2) bounds0.y bounds0.width
        bounds0.height
    else bounds0
  let bounds2 :=
    if pos.y > v.position.y then
      Bounds.mk bounds1.x (bounds1.y + bounds1.height / 2) bounds1.width
        bounds1.height
    else bounds1
  { text := toString v.timeY
    fontSize := fontSize
    pos := v.position
    bounds := bounds2
    seriesHover := series.isHover
    seriesFocus := series.isFocus
    isMid := true }

/-- `makeMidLabels`: year labels for the interior points
(`values.slice(1, -1)`) of a foreground series, unless the series is not
hovered and the chart is in subtle-foreground mode. -/
def makeMidLabels (ctx : Ctx) (subtle : Bool)
    (series : ScatterRenderSeries) : List ScatterLabel :=
  if !series.isForeground || series.values.length ≤ 1
      || (!series.isHover && subtle) then []
  else
    let fontSize : ℚ :=
      if series.isForeground then (if subtle then 8 else 9) else 7
    ((series.values.drop 1).dropLast).enum.map
      (fun q => makeMidLabel ctx fontSize series q.1 q.2)

/-- The direction of travel assigned to `series.offsetVector` inside
`makeEndLabel`: the last segment, or straight up for a single value. -/
def seriesOffsetVector (series : ScatterRenderSeries) : Vector2 :=
  if 1 < series.values.length then
    let lastValue := (series.values.getLast?).getD dfltRV
    let prevValue :=
      (series.values[series.values.length - 2]?).getD dfltRV
    lastValue.position.subtract prevValue.position
  else Vector2.up

/-- `makeEndLabel`: the entity-name label past the last point, offset
along the direction of travel by `size + 1` (single value) or `5`. -/
def makeEndLabel (ctx : Ctx) (subtle : Bool)
    (series : ScatterRenderSeries) : ScatterLabel :=
  let lastValue := (series.values.getLast?).getD dfltRV
  let lastPos := lastValue.position
  let fontSize := lastValue.fontSize *
    (if series.isForeground then (if subtle then 12/10 else 13/10)
     else 11/10)
  let offsetVector := seriesOffsetVector series
  let labelPos := lastPos.add ((offsetVector.normalize ctx.sqrt).times
    (if series.values.length = 1 then lastValue.size + 1 else 5))
  let labelBounds0 := Bounds.forText series.text labelPos.x labelPos.y
    fontSize
  let labelBounds1 :=
    if labelPos.x < lastPos.x then
      labelBounds0.extendX (labelBounds0.x - labelBounds0.width)
    else labelBounds0
  let labelBounds2 :=
    if labelPos.y > lastPos.y then
      labelBounds1.extendY (labelBounds1.y + labelBounds1.height / 2)
    else labelBounds1
  { text := series.text
    fontSize := fontSize
    pos := labelPos
    bounds := labelBounds2
    seriesHover := series.isHover
    seriesFocus := series.isFocus
    isEnd := true }

/-! ## `renderData`: flags, labels, bounds clamp, collision pass

The source's `renderData` getter re-sorts descending by size, sets the
hover/focus flags (mutating `size` for hovered series), synthesises the
labels per series, then mutates the shared label objects in two passes
(bounds clamp, then priority collision suppression).  Each mutation pass
is modelled as an explicit stage; the JS object identity that routes the
mutations back into the per-series label slots is modelled by the
position of a label inside the flattened `allLabels` list. -/

/-- The first `_.each` of `renderData`: set `isHover` / `isFocus` /
`isForeground` and bump the size of hovered series by one. -/
def applyFlags (p : Props) (hoverKey : Option String)
    (series : ScatterRenderSeries) : ScatterRenderSeries :=
  let isHover := (hoverKeysOf p hoverKey).contains series.key
  let isFocus := p.focusKeys.contains series.key
  { series with
      isHover := isHover
      isFocus := isFocus
      isForeground := isHover || isFocus
      size := if isHover then series.size + 1 else series.size }

/-- The second `_.each` of `renderData`: synthesise the labels (and the
`offsetVector` that `makeEndLabel` writes onto the series). -/
def makeLabels (ctx : Ctx) (subtle : Bool)
    (series : ScatterRenderSeries) : ScatterRenderSeries :=
  { series with
      startLabel := makeStartLabel ctx subtle series
      midLabels := makeMidLabels ctx subtle series
      endLabel := some (makeEndLabel ctx subtle series)
      offsetVector := seriesOffsetVector series }

/-- Apply `f` to every label of a series, indexed by the label's position
in `allLabelsOf` (start label first, then mids, then the end label). -/
def mapSeriesLabels (f : Nat → ScatterLabel → ScatterLabel)
    (s : ScatterRenderSeries) : ScatterRenderSeries :=
  let off := if s.startLabel.isSome then 1 else 0
  { s with
      startLabel := s.startLabel.map (f 0)
      midLabels := s.midLabels.enum.map (fun q => f (off + q.1) q.2)
      endLabel := s.endLabel.map (f (off + s.midLabels.length)) }

/-- The bounds-clamp body ("Ensure labels fit inside bounds"): translate a
label box that overhangs an edge (1px tolerance) inward by its own width,
or snap it to the top/bottom edge. -/
def clampLabel (bounds : Bounds) (l : ScatterLabel) : ScatterLabel :=
  let b1 :=
    if l.bounds.left < bounds.left - 1 then
      l.bounds.extendX (l.bounds.x + l.bounds.width)
    else if l.bounds.right > bounds.right + 1 then
      l.bounds.extendX (l.bounds.x - l.bounds.width)
    else l.bounds
  let b2 :=
    if b1.top < bounds.top - 1 then b1.extendY bounds.top
    else if b1.bottom > bounds.bottom + 1 then
      b1.extendY (bounds.bottom - b1.height)
    else b1
  { l with bounds := b2 }

/-- The bounds-clamp pass over a flattened label list. -/
def clampPass (bounds : Bounds) (ls : List ScatterLabel) :
    List ScatterLabel :=
  ls.map (clampLabel bounds)

/-- `{l with isHidden := true}`: the sole write of the collision loop. -/
def hideLabel (l : ScatterLabel) : ScatterLabel := { l with isHidden := true }

/-- `labelsByPriority`: sort descending by `labelPriority`
(`_.sortBy(allLabels, l => -labelPriority(l))`). -/
def labelsByPriority (ls : List ScatterLabel) : List ScatterLabel :=
  stableSortBy (fun l => -labelPriority l) qle ls

/-- The collision pass on plain labels, in priority order. -/
def resolveLabels (ls : List ScatterLabel) : List ScatterLabel :=
  resolveCollisions (fun l => l.bounds) (fun l => l.isHidden) hideLabel ls

/-- A label tagged with its position in the flattened `allLabels` list
(modelling JS object identity). -/
abbrev TaggedLabel := Nat × ScatterLabel

/-- The collision pass run over the tagged flattened label list: returns
the positions of the labels that end up hidden. -/
def collideTags (ls : List ScatterLabel) : List Nat :=
  let sorted := stableSortBy (fun t : TaggedLabel => -labelPriority t.2)
    qle ls.enum
  (resolveCollisions (fun t : TaggedLabel => t.2.bounds)
      (fun t => t.2.isHidden) (fun t => (t.1, hideLabel t.2))
      sorted).filterMap
    (fun t => if t.2.isHidden then some t.1 else none)

/-- The effect of the collision loop on the flattened label list itself:
each label whose tag was hidden gets `isHidden := true`, order and all
other fields untouched. -/
def collidePass (ls : List ScatterLabel) : List ScatterLabel :=
  let tags := collideTags ls
  ls.enum.map (fun q => if tags.contains q.1 then hideLabel q.2 else q.2)

/-- The Collision Resolver on the flattened label list: the bounds clamp
followed by the priority suppression pass. -/
def resolver (bounds : Bounds) (ls : List ScatterLabel) :
    List ScatterLabel :=
  collidePass (clampPass bounds ls)

/-- Write the hidden flags computed on the flattened list back into the
per-series label slots; `off` is the flat position of the series' first
label. -/
def applyHiddenToSeries (tags : List Nat) (off : Nat)
    (s : ScatterRenderSeries) : ScatterRenderSeries :=
  mapSeriesLabels
    (fun li l => if tags.contains (off + li) then hideLabel l else l) s

def applyHiddenAll (tags : List Nat) :
    Nat → List ScatterRenderSeries → List ScatterRenderSeries
  | _, [] => []
  | off, s :: rest =>
    applyHiddenToSeries tags off s ::
      applyHiddenAll tags (off + (allLabelsOf s).length) rest

/-- Clamp every label of a series to the plot bounds. -/
def clampSeries (bounds : Bounds) (s : ScatterRenderSeries) :
    ScatterRenderSeries :=
  mapSeriesLabels (fun _ l => clampLabel bounds l) s

/-- `get renderData`: the full derived render data.  Stage 1 re-sorts
descending by size ("Draw the largest points first so that smaller ones
can sit on top of them") and sets the flags; stage 2 synthesises labels;
stage 3 clamps label bounds; stage 4 runs the collision loop over the
flattened labels and writes the hidden flags back. -/
def renderData (ctx : Ctx) (p : Props) (hoverKey : Option String) :
    List ScatterRenderSeries :=
  let sorted := stableSortBy (fun d => -d.size) qle
    (initialRenderData ctx p)
  let flagged := sorted.map (applyFlags p hoverKey)
  let labelled := flagged.map (makeLabels ctx (isSubtleForeground p))
  let clamped := labelled.map (clampSeries p.bounds)
  let tags := collideTags ((clamped.map allLabelsOf).flatten)
  applyHiddenAll tags 0 clamped

/-- `get backgroundGroups`: the non-foreground series, in render order. -/
def backgroundGroups (rd : List ScatterRenderSeries) :
    List ScatterRenderSeries :=
  rd.filter fun group => !group.isForeground

/-- `get foregroundGroups`. -/
def foregroundGroups (rd : List ScatterRenderSeries) :
    List ScatterRenderSeries :=
  rd.filter fun group => group.isForeground

/-! ## Interaction Controller

`onMouseMove` / `onMouseLeave` / `onClick` and prop changes, as a state
machine over the component state (`props`, `hoverKey`).  The
`requestAnimationFrame` deferral only coalesces rapid events; each
handler's effect on the state is the synchronous body, modelled as one
transition. -/

/-- lodash `_.min`: `undefined` on an empty list. -/
def listMin : List ℚ → Option ℚ
  | [] => none
  | a :: as =>
    match listMin as with
    | none => some a
    | some b => some (min a b)

/-- The sort key of `onMouseMove`: minimal squared distance from the
mouse to the series (point-to-segment distance along consecutive values
when any series is connected, point distance otherwise). -/
def seriesDistance (connected : Bool) (mouse : Vector2)
    (series : ScatterRenderSeries) : Option ℚ :=
  if connected then
    listMin ((series.values.dropLast).enum.map fun q =>
      Vector2.distanceFromPointToLineSq mouse q.2.position
        (((series.values[q.1 + 1]?).getD dfltRV).position))
  else
    listMin (series.values.map fun v =>
      Vector2.distanceSq v.position mouse)

/-- `_.sortBy(renderData, distanceKey)[0]`. -/
def closestSeries (ctx : Ctx) (p : Props) (hoverKey : Option String)
    (mouse : Vector2) : Option ScatterRenderSeries :=
  (stableSortBy (seriesDistance (isConnected p) mouse) optLE
    (renderData ctx p hoverKey)).head?

/-- The mutable component state: the props plus the transient
`@observable hoverKey`. -/
structure CompState where
  props : Props
  hoverKey : Option String
deriving DecidableEq

/-- The events the claimed invariant ranges over: the three pointer
handlers and an input-data change. -/
inductive UIEvent where
  | mouseMove (mouse : Vector2)
  | mouseLeave
  | click
  | setData (data : List ScatterSeries)

def isSetData : UIEvent → Bool
  | .setData _ => true
  | _ => false

/-- One transition of the interaction controller.  `onMouseMove` sets the
hover key to the closest series' key (or clears it when there is none);
`onMouseLeave` clears it; `onClick` only fires the selection callback; a
data change replaces `props.data` and touches nothing else. -/
def step (ctx : Ctx) (st : CompState) : UIEvent → CompState
  | .mouseMove mouse =>
    match closestSeries ctx st.props st.hoverKey mouse with
    | some s => { st with hoverKey := some s.key }
    | none => { st with hoverKey := none }
  | .mouseLeave => { st with hoverKey := none }
  | .click => st
  | .setData d => { st with props := { st.props with data := d } }

/-- Run a sequence of events. -/
def run (ctx : Ctx) : CompState → List UIEvent → CompState :=
  List.foldl (step ctx)

/-- The hover-key invariant claimed by the spec: absent, or the key of a
series present in the current input series list. -/
def hoverInv (st : CompState) : Prop :=
  st.hoverKey = none ∨ st.hoverKey ∈ st.props.data.map fun d => some d.key

instance (st : CompState) : Decidable (hoverInv st) := by
  unfold hoverInv; infer_instance

/-! ## Claim-level predicates and concrete instances -/

/-- A label box lying inside the plot bounds up to the clamp's 1px
tolerance. -/
def withinTolerance (plot b : Bounds) : Prop :=
  plot.left - 1 ≤ b.left ∧ b.right ≤ plot.right + 1 ∧
    plot.top - 1 ≤ b.top ∧ b.bottom ≤ plot.bottom + 1

instance (plot b : Bounds) : Decidable (withinTolerance plot b) := by
  unfold withinTolerance; infer_instance

/-- Claim C5 as stated, at a given plot and label list: applying the
bounds-clamp pass twice yields the same labels as applying it once. -/
def clampIdemOn (plot : Bounds) (ls : List ScatterLabel) : Prop :=
  clampPass plot (clampPass plot ls) = clampPass plot ls

instance (plot : Bounds) (ls : List ScatterLabel) :
    Decidable (clampIdemOn plot ls) := by
  unfold clampIdemOn; infer_instance

/-- Reset the `isHidden` flag: two labels agree on every field other than
`isHidden` iff their `stripHidden` images are equal. -/
def stripHidden (l : ScatterLabel) : ScatterLabel := { l with isHidden := false }

/-- Claim C4 as stated, at a given plot and flattened label list: the
Collision Resolver (clamp pass + suppression pass) leaves every field
except `isHidden` — in particular `bounds` — unchanged. -/
def resolverWritesOnlyHidden (plot : Bounds) (ls : List ScatterLabel) : Prop :=
  ∀ k : Fin ls.length,
    ((resolver plot ls)[k.1]?).map stripHidden = some (stripHidden (ls.get k))

instance (plot : Bounds) (ls : List ScatterLabel) :
    Decidable (resolverWritesOnlyHidden plot ls) := by
  unfold resolverWritesOnlyHidden; infer_instance

/-- A 50×50 plot rectangle for the concrete instances. -/
def plot0 : Bounds := ⟨0, 0, 50, 50⟩

/-- A concrete label with the given box and font size. -/
def mkLabel (x y w h fs : ℚ) : ScatterLabel :=
  { text := "t", fontSize := fs, pos := Vector2.zero, bounds := ⟨x, y, w, h⟩ }

/-- A label far beyond the left edge: one clamp translation (by its own
width) does not bring it within tolerance. -/
def farLabel : ScatterLabel := mkLabel (-100) 10 10 5 10

/-- A label already inside the plot bounds. -/
def okLabel : ScatterLabel := mkLabel 10 10 8 5 10

/-- The label list after the full collision pass, in the
descending-priority order the pass works through
(`labelsByPriority` = `_.sortBy(allLabels, l => -labelPriority(l))`). -/
def afterCollision (ls : List ScatterLabel) : List ScatterLabel :=
  resolveLabels (labelsByPriority ls)

/-- Claim C1 as stated, at a given label list: for every pair with
differing computed priority whose bounds intersect, after the collision
pass the strictly lower-priority member is hidden and the
higher-priority member is not. -/
def claimC1 (ls : List ScatterLabel) : Prop :=
  ∀ i j : Fin (afterCollision ls).length,
    labelPriority ((afterCollision ls).get j) <
        labelPriority ((afterCollision ls).get i) →
      ((afterCollision ls).get i).bounds.intersects
          ((afterCollision ls).get j).bounds = true →
      ((afterCollision ls).get j).isHidden = true ∧
        ((afterCollision ls).get i).isHidden = false

instance (ls : List ScatterLabel) : Decidable (claimC1 ls) := by
  unfold claimC1; infer_instance

/-- Priority 3; box `[0,2] × [0,1]`. -/
def labelA : ScatterLabel := mkLabel 0 0 2 1 3

/-- Priority 2; box `[3/2, 7/2] × [0,1]`: meets `labelA` and `labelC`. -/
def labelB : ScatterLabel := mkLabel (3/2) 0 2 1 2

/-- Priority 1; box `[3,5] × [0,1]`: meets `labelB` but not `labelA`. -/
def labelC : ScatterLabel := mkLabel 3 0 2 1 1

/-- Position 0 in the two-label collision instance of the C1 witness. -/
def idx0 : Fin (afterCollision [labelA, labelB]).length :=
  ⟨0, by with_unfolding_all decide⟩

/-- Position 1 in the two-label collision instance of the C1 witness. -/
def idx1 : Fin (afterCollision [labelA, labelB]).length :=
  ⟨1, by with_unfolding_all decide⟩

/-- A concrete external context: identity square root and placement,
`pi = 1`, constant default color.  The verified general theorems hold for
every context; the concrete instances only need some computable one. -/
def ctx0 : Ctx :=
  { sqrt := fun q => q
    pi := 1
    xPlace := fun q => q
    yPlace := fun q => q
    defaultColor := fun _ => "c" }

/-- A value at `(1,1)` in year 2000 with the given magnitude. -/
def valSized (q : ℚ) : ScatterValue :=
  { x := 1, y := 1, size := q, year := 2000, timeX := 2000, timeY := 2000 }

/-- A series whose own `size` (4) differs from its single value's `size`
(2): separates the two font-size readings. -/
def seriesD : ScatterSeries :=
  { color := "", key := "a", label := "A", size := 4, values := [valSized 2] }

/-- Props with `seriesD` only, size domain `[0, 10]`. -/
def props3 : Props :=
  { data := [seriesD], hoverKeys := [], focusKeys := [], bounds := plot0
    sizeDomain := (0, 10) }

/-- Claim C3 as stated: every render value's font size is the `[10,13]`
scale applied to that value's own magnitude (`v.size || 1`). -/
def claimC3 (ctx : Ctx) (p : Props) : Prop :=
  ∀ di : Fin p.data.length, ∀ vi : Fin ((p.data.get di).values.length),
    ((buildSeries ctx p (p.data.get di)).values[vi.1]?).map
        (fun rv => rv.fontSize) =
      some (fontScale p (jsOr ((p.data.get di).values.get vi).size 1))

instance (ctx : Ctx) (p : Props) : Decidable (claimC3 ctx p) := by
  unfold claimC3; infer_instance

/-- A large-magnitude single-value series. -/
def seriesBig : ScatterSeries :=
  { color := "", key := "b", label := "B", size := 1, values := [valSized 10] }

/-- A small-magnitude single-value series (`size = 0`, the falsy default
case). -/
def seriesSmall : ScatterSeries :=
  { color := "", key := "s", label := "S", size := 1, values := [valSized 0] }

/-- Props with the small and big series and nothing hovered or focused:
every series is background. -/
def props2 : Props :=
  { data := [seriesSmall, seriesBig], hoverKeys := [], focusKeys := []
    bounds := plot0, sizeDomain := (0, 10) }

/-- Background-ordering relation carried through the pipeline stages:
whenever both series are background (not foreground), the later one is no
larger. -/
def bgRel (a b : ScatterRenderSeries) : Prop :=
  a.isForeground = false → b.isForeground = false → b.size ≤ a.size

/-- Claim C2 as stated: the finalized render order restricted to
background series is ascending by series pixel size (each series at least
as large as the one drawn just before it; the out-of-range successor
defaults to the element itself, making the condition vacuous at the
end). -/
def claimC2 (ctx : Ctx) (p : Props) (hk : Option String) : Prop :=
  ∀ i : Fin (backgroundGroups (renderData ctx p hk)).length,
    ((backgroundGroups (renderData ctx p hk)).get i).size ≤
      (((backgroundGroups (renderData ctx p hk))[i.1 + 1]?).getD
        ((backgroundGroups (renderData ctx p hk)).get i)).size

instance (ctx : Ctx) (p : Props) (hk : Option String) :
    Decidable (claimC2 ctx p hk) := by
  unfold claimC2; infer_instance

/-- Initial interaction state over `props3`: nothing hovered. -/
def st0 : CompState := { props := props3, hoverKey := none }

/-! # Theorems

Everything from here on is a statement about the definitions above:
general lemmas about the stable sort and the collision loop first, then
the per-claim results. -/

theorem Bounds.intersects_symm (a b : Bounds) :
    Bounds.intersects a b = Bounds.intersects b a := by
  simp only [Bounds.intersects]
  by_cases h1 : a.left ≤ b.right <;> by_cases h2 : b.left ≤ a.right <;>
    by_cases h3 : a.top ≤ b.bottom <;> by_cases h4 : b.top ≤ a.bottom <;>
      simp [h1, h2, h3, h4]

section StableSortThms

variable {α κ : Type} (f : α → κ) (le : κ → κ → Bool)

theorem insLE_perm (a : α) (l : List α) : List.Perm (insLE f le a l) (a :: l) := by
  induction l with
  | nil => simp [insLE]
  | cons b bs ih =>
    simp only [insLE]
    by_cases h : le (f b) (f a) = true
    · simp only [if_pos h]
      exact (ih.cons b).trans (List.Perm.swap a b bs)
    · simp only [if_neg h]
      exact List.Perm.refl _

theorem stableSortBy_perm (l : List α) : List.Perm (stableSortBy f le l) l := by
  induction l with
  | nil => simp [stableSortBy]
  | cons a as ih =>
    simp only [stableSortBy]
    exact (insLE_perm f le a (stableSortBy f le as)).trans (ih.cons a)

theorem mem_stableSortBy {x : α} {l : List α} :
    x ∈ stableSortBy f le l ↔ x ∈ l :=
  (stableSortBy_perm f le l).mem_iff

theorem stableSortBy_length (l : List α) :
    (stableSortBy f le l).length = l.length :=
  (stableSortBy_perm f le l).length_eq

theorem mem_insLE {x a : α} {l : List α} :
    x ∈ insLE f le a l ↔ x = a ∨ x ∈ l := by
  rw [(insLE_perm f le a l).mem_iff, List.mem_cons]

theorem pairwise_insLE
    (Htot : ∀ x y, le x y = true ∨ le y x = true)
    (Htrans : ∀ x y z, le x y = true → le y z = true → le x z = true)
    (a : α) (l : List α)
    (h : l.Pairwise (fun u v => le (f u) (f v) = true)) :
    (insLE f le a l).Pairwise (fun u v => le (f u) (f v) = true) := by
  induction l with
  | nil => simp [insLE]
  | cons b bs ih =>
    simp only [insLE]
    rcases h with - | ⟨hb, hbs⟩
    by_cases hba : le (f b) (f a) = true
    · simp only [if_pos hba, List.pairwise_cons]
      refine ⟨?_, ih hbs⟩
      intro u hu
      rcases (mem_insLE f le).mp hu with rfl | hu
      · exact hba
      · exact hb u hu
    · simp only [if_neg hba, List.pairwise_cons]
      have hab : le (f a) (f b) = true := by
        rcases Htot (f a) (f b) with h' | h'
        · exact h'
        · exact absurd h' hba
      refine ⟨?_, hb, hbs⟩
      intro u hu
      rcases List.mem_cons.mp hu with rfl | hu
      · exact hab
      · exact Htrans _ _ _ hab (hb u hu)

theorem pairwise_stableSortBy
    (Htot : ∀ x y, le x y = true ∨ le y x = true)
    (Htrans : ∀ x y z, le x y = true → le y z = true → le x z = true)
    (l : List α) :
    (stableSortBy f le l).Pairwise (fun u v => le (f u) (f v) = true) := by
  induction l with
  | nil => simp [stableSortBy]
  | cons a as ih => exact pairwise_insLE f le Htot Htrans a _ ih

end StableSortThms

theorem qle_total (x y : ℚ) : qle x y = true ∨ qle y x = true := by
  simp only [qle, decide_eq_true_eq]
  exact le_total x y

theorem qle_trans (x y z : ℚ) :
    qle x y = true → qle y z = true → qle x z = true := by
  simp only [qle, decide_eq_true_eq]
  exact le_trans

section ResolveThms

variable {α : Type} (bnds : α → Bounds) (hidden : α → Bool) (hide : α → α)

theorem resolveStep_length (l1 : α) (rest : List α) :
    (resolveStep bnds hidden hide l1 rest).length = rest.length :=
  List.length_map _ _

theorem resolveGo_length (n : Nat) (ls : List α) :
    (resolveGo bnds hidden hide n ls).length = ls.length := by
  induction n generalizing ls with
  | zero => rfl
  | succ n ih =>
    cases ls with
    | nil => rfl
    | cons l1 rest =>
      simp only [resolveGo]
      by_cases h : hidden l1 = true
      · simp [if_pos h, ih]
      · simp [if_neg h, ih, resolveStep_length]

/-- Every element of the resolved list is an input element, possibly
hidden. -/
theorem mem_resolveGo
    (Hii : ∀ x, hide (hide x) = hide x)
    {n : Nat} {ls : List α} {x : α}
    (hx : x ∈ resolveGo bnds hidden hide n ls) :
    ∃ y ∈ ls, x = y ∨ x = hide y := by
  induction n generalizing ls with
  | zero => exact ⟨x, hx, Or.inl rfl⟩
  | succ n ih =>
    cases ls with
    | nil => simp [resolveGo] at hx
    | cons l1 rest =>
      simp only [resolveGo] at hx
      by_cases h : hidden l1 = true
      · rw [if_pos h] at hx
        rcases List.mem_cons.mp hx with rfl | hx
        · exact ⟨x, List.mem_cons_self .., Or.inl rfl⟩
        · obtain ⟨y, hy, hxy⟩ := ih hx
          exact ⟨y, List.mem_cons_of_mem _ hy, hxy⟩
      · rw [if_neg h] at hx
        rcases List.mem_cons.mp hx with rfl | hx
        · exact ⟨x, List.mem_cons_self .., Or.inl rfl⟩
        · obtain ⟨y', hy', hxy'⟩ := ih hx
          simp only [resolveStep, List.mem_map] at hy'
          obtain ⟨y, hy, hcase⟩ := hy'
          refine ⟨y, List.mem_cons_of_mem _ hy, ?_⟩
          by_cases hc : (!hidden y && (bnds l1).intersects (bnds y)) = true
          · rw [if_pos hc] at hcase
            rcases hxy' with rfl | rfl
            · exact Or.inr hcase.symm
            · right; rw [← hcase, Hii]
          · rw [if_neg hc] at hcase
            rcases hxy' with rfl | rfl
            · exact Or.inl hcase.symm
            · right; rw [← hcase]

/-- After `resolveStep l1`, every element is hidden or does not intersect
`l1`. -/
theorem resolveStep_prop
    (Hh : ∀ x, hidden (hide x) = true)
    {l1 : α} {rest : List α} {y : α}
    (hy : y ∈ resolveStep bnds hidden hide l1 rest) :
    hidden y = true ∨ (bnds l1).intersects (bnds y) = false := by
  simp only [resolveStep, List.mem_map] at hy
  obtain ⟨z, _, hz⟩ := hy
  by_cases hc : (!hidden z && (bnds l1).intersects (bnds z)) = true
  · rw [if_pos hc] at hz
    exact Or.inl (hz ▸ Hh z)
  · rw [if_neg hc] at hz
    subst hz
    cases hhz : hidden z with
    | true => exact Or.inl rfl
    | false =>
      cases hint : (bnds l1).intersects (bnds z) with
      | false => exact Or.inr rfl
      | true => exact absurd (by rw [hhz, hint]; rfl) hc

/-- Main invariant of the collision loop: in the output, whenever an
earlier label is visible and intersects a later label, the later label is
hidden. -/
theorem pairwise_resolveGo
    (Hh : ∀ x, hidden (hide x) = true)
    (Hii : ∀ x, hide (hide x) = hide x)
    {n : Nat} {ls : List α} (hn : ls.length ≤ n) :
    (resolveGo bnds hidden hide n ls).Pairwise
      (fun a b => hidden a = false → (bnds a).intersects (bnds b) = true →
        hidden b = true) := by
  induction n generalizing ls with
  | zero =>
    rw [Nat.le_zero, List.length_eq_zero] at hn
    subst hn
    simp [resolveGo]
  | succ n ih =>
    cases ls with
    | nil => simp [resolveGo]
    | cons l1 rest =>
      have hrest : rest.length ≤ n := Nat.le_of_succ_le_succ hn
      simp only [resolveGo]
      by_cases h : hidden l1 = true
      · rw [if_pos h]
        refine List.Pairwise.cons ?_ (ih hrest)
        intro b _ h1
        exact absurd h (by simp [h1])
      · rw [if_neg h]
        have hrest' : (resolveStep bnds hidden hide l1 rest).length ≤ n := by
          rw [resolveStep_length]; exact hrest
        refine List.Pairwise.cons ?_ (ih hrest')
        intro b hb _ hint
        obtain ⟨y, hy, hcase⟩ := mem_resolveGo bnds hidden hide Hii hb
        rcases hcase with rfl | rfl
        · rcases resolveStep_prop bnds hidden hide Hh hy with h' | h'
          · exact h'
          · rw [hint] at h'; exact absurd h' (by simp)
        · exact Hh y

/-- The collision pass does not change any projection of the elements that
`hide` preserves (in particular bounds, priority, and every label field
other than `isHidden`). -/
theorem resolveGo_map_eq {β : Type} (g : α → β)
    (Hg : ∀ x, g (hide x) = g x) (n : Nat) (ls : List α) :
    (resolveGo bnds hidden hide n ls).map g = ls.map g := by
  induction n generalizing ls with
  | zero => rfl
  | succ n ih =>
    cases ls with
    | nil => rfl
    | cons l1 rest =>
      simp only [resolveGo]
      have hstep : (resolveStep bnds hidden hide l1 rest).map g = rest.map g := by
        simp only [resolveStep, List.map_map]
        refine List.map_congr_left ?_
        intro x _
        simp only [Function.comp_apply]
        by_cases hc : (!hidden x && (bnds l1).intersects (bnds x)) = true
        · rw [if_pos hc, Hg]
        · rw [if_neg hc]
      by_cases h : hidden l1 = true
      · rw [if_pos h]; simp [ih]
      · rw [if_neg h]; simp [ih, hstep]

theorem resolveGo_head (n : Nat) (ls : List α) :
    (resolveGo bnds hidden hide n ls).head? = ls.head? := by
  cases n with
  | zero => rfl
  | succ n =>
    cases ls with
    | nil => rfl
    | cons l1 rest =>
      simp only [resolveGo]
      by_cases h : hidden l1 = true
      · rw [if_pos h]; rfl
      · rw [if_neg h]; rfl

theorem resolveCollisions_head (ls : List α) :
    (resolveCollisions bnds hidden hide ls).head? = ls.head? :=
  resolveGo_head bnds hidden hide _ ls

theorem resolveCollisions_length (ls : List α) :
    (resolveCollisions bnds hidden hide ls).length = ls.length :=
  resolveGo_length bnds hidden hide _ ls

end ResolveThms

/-! ## C5: idempotence of the bounds clamp -/

/-- The clamp is a no-op on a label already within tolerance. -/
theorem clampLabel_eq_self (plot : Bounds) (l : ScatterLabel)
    (h : withinTolerance plot l.bounds) : clampLabel plot l = l := by
  obtain ⟨h1, h2, h3, h4⟩ := h
  have n1 : ¬(l.bounds.left < plot.left - 1) := not_lt.mpr h1
  have n2 : ¬(l.bounds.right > plot.right + 1) := not_lt.mpr h2
  have n3 : ¬(l.bounds.top < plot.top - 1) := not_lt.mpr h3
  have n4 : ¬(l.bounds.bottom > plot.bottom + 1) := not_lt.mpr h4
  simp only [clampLabel, if_neg n1, if_neg n2, if_neg n3, if_neg n4]

/-- C5, counterexample: the bounds-clamp pass is not idempotent as
claimed — a label overhanging the left edge by more than its own width is
translated inward again by the second application. -/
theorem c5_counterexample : ¬ clampIdemOn plot0 [farLabel] := by
  with_unfolding_all decide

/-- C5, amended: reapplying the bounds-clamp moves no label provided the
first application left every label within the plot bounds (up to the 1px
tolerance); equivalently, the clamp is a no-op on already-in-bounds
labels.  (Unconditional idempotence fails: each application translates an
overhanging box by exactly one box width/height, so a label overhanging by
more than its own width moves again, as `c5_counterexample` shows.) -/
theorem c5_clamp_idempotent_of_withinTolerance (plot : Bounds)
    (ls : List ScatterLabel)
    (h : ∀ l ∈ clampPass plot ls, withinTolerance plot l.bounds) :
    clampIdemOn plot ls := by
  unfold clampIdemOn
  conv_lhs => rw [clampPass]
  have hpt : ∀ l ∈ clampPass plot ls, clampLabel plot l = l := fun l hl =>
    clampLabel_eq_self plot l (h l hl)
  exact (List.map_congr_left hpt).trans (List.map_id _)

/-- C5 witness: a concrete in-bounds label on which the amended statement
applies. -/
theorem c5_witness :
    (∀ l ∈ clampPass plot0 [okLabel], withinTolerance plot0 l.bounds) ∧
      clampIdemOn plot0 [okLabel] :=
  ⟨by with_unfolding_all decide,
    c5_clamp_idempotent_of_withinTolerance plot0 [okLabel]
      (by with_unfolding_all decide)⟩

/-! ## C4: what the Collision Resolver writes -/

/-- C4, counterexample: the resolver does not write only `isHidden` — its
clamp pass rewrites the `bounds` of an out-of-bounds label. -/
theorem c4_counterexample : ¬ resolverWritesOnlyHidden plot0 [farLabel] := by
  with_unfolding_all decide

/-- C4, amended: per label, the resolver output agrees with the input on
`pos`, `text` and `fontSize` (and all remaining fields except `bounds`
and `isHidden`); its `bounds` is exactly the input's bounds after the
clamp step (so `bounds` does change when the clamp moves a label), and
`isHidden` is the only further write, made by the suppression pass. -/
theorem c4_resolver_fields (plot : Bounds) (ls : List ScatterLabel)
    (k : Fin ls.length) :
    ∃ l', (resolver plot ls)[k.1]? = some l' ∧
      (l' = clampLabel plot (ls.get k) ∨
        l' = hideLabel (clampLabel plot (ls.get k))) ∧
      l'.pos = (ls.get k).pos ∧ l'.text = (ls.get k).text ∧
      l'.fontSize = (ls.get k).fontSize ∧
      l'.bounds = (clampLabel plot (ls.get k)).bounds := by
  have hkk : ls[k.1]? = some (ls.get k) := by
    rw [List.getElem?_eq_getElem k.2, List.get_eq_getElem]
  have hk : (clampPass plot ls)[k.1]? = some (clampLabel plot (ls.get k)) := by
    simp only [clampPass, List.getElem?_map, hkk, Option.map_some']
  simp only [resolver, collidePass]
  set tags := collideTags (clampPass plot ls)
  have henum : (clampPass plot ls).enum[k.1]? =
      some (k.1, clampLabel plot (ls.get k)) := by
    rw [List.getElem?_enum, hk]
    rfl
  rw [List.getElem?_map, henum]
  by_cases hc : tags.contains k.1 = true
  · rw [Option.map_some', if_pos hc]
    exact ⟨_, rfl, Or.inr rfl, rfl, rfl, rfl, rfl⟩
  · rw [Option.map_some', if_neg hc]
    exact ⟨_, rfl, Or.inl rfl, rfl, rfl, rfl, rfl⟩

/-! ## C1 and C10: the collision pass -/

/-- C1, counterexample: with `A` (priority 3) meeting `B` (priority 2),
`B` meeting `C` (priority 1), and `A` clear of `C`, the pass hides `B`
(because of `A`) and then skips it, so `C` stays visible: the
intersecting, differing-priority pair `(B, C)` ends with its
lower-priority member visible and its higher-priority member hidden. -/
theorem c1_counterexample : ¬ claimC1 [labelA, labelB, labelC] := by
  with_unfolding_all decide

/-- C1, amended: after the collision pass, of any two distinct
intersecting labels at least one is hidden (no two visible labels
intersect); and for an intersecting pair of differing priority, if the
higher-priority member is visible then the strictly lower-priority member
is hidden.  (The claim as stated fails only in that the higher-priority
member may itself have been hidden by a still higher label, in which case
the lower one can stay visible — `c1_counterexample`.) -/
theorem c1_amended (ls : List ScatterLabel)
    (i j : Fin (afterCollision ls).length) (hne : i ≠ j)
    (hint : ((afterCollision ls).get i).bounds.intersects
      ((afterCollision ls).get j).bounds = true) :
    (((afterCollision ls).get i).isHidden = true ∨
        ((afterCollision ls).get j).isHidden = true) ∧
      (labelPriority ((afterCollision ls).get j) <
          labelPriority ((afterCollision ls).get i) →
        ((afterCollision ls).get i).isHidden = false →
        ((afterCollision ls).get j).isHidden = true) := by
  set st := labelsByPriority ls with hst
  have Hh : ∀ l : ScatterLabel, (hideLabel l).isHidden = true := fun _ => rfl
  have Hii : ∀ l : ScatterLabel, hideLabel (hideLabel l) = hideLabel l :=
    fun _ => rfl
  have hP := pairwise_resolveGo (fun l : ScatterLabel => l.bounds)
    (fun l => l.isHidden) hideLabel Hh Hii (Nat.le_refl st.length)
  have hPg := (List.pairwise_iff_get.mp hP)
  have hsort : (afterCollision ls).Pairwise
      (fun a b => labelPriority b ≤ labelPriority a) := by
    have h1 : st.Pairwise
        (fun a b => labelPriority b ≤ labelPriority a) := by
      have h0 := pairwise_stableSortBy (fun l : ScatterLabel =>
        -labelPriority l) qle qle_total qle_trans ls
      have he : stableSortBy (fun l : ScatterLabel => -labelPriority l)
          qle ls = st := rfl
      rw [he] at h0
      refine h0.imp ?_
      intro a b hab
      simp only [qle, decide_eq_true_eq] at hab
      linarith
    have hmap : (afterCollision ls).map labelPriority =
        st.map labelPriority :=
      resolveGo_map_eq (fun l : ScatterLabel => l.bounds)
        (fun l => l.isHidden) hideLabel labelPriority (fun _ => rfl) _ _
    have h2 : ((afterCollision ls).map labelPriority).Pairwise
        (fun a b : ℚ => b ≤ a) := by
      rw [hmap]
      exact (List.pairwise_map).mpr h1
    exact (List.pairwise_map).mp h2
  have hsg := List.pairwise_iff_get.mp hsort
  have hout : afterCollision ls =
      resolveGo (fun l : ScatterLabel => l.bounds) (fun l => l.isHidden)
        hideLabel st.length st := rfl
  rw [← hout] at hPg
  constructor
  · by_cases hi : ((afterCollision ls).get i).isHidden = true
    · exact Or.inl hi
    · have hi' : ((afterCollision ls).get i).isHidden = false :=
        Bool.not_eq_true _ ▸ (Bool.eq_false_iff.mpr hi)
      rcases lt_or_gt_of_ne (fun h => hne (Fin.ext h)) with hij | hij
      · exact Or.inr (hPg i j hij hi' hint)
      · by_cases hj : ((afterCollision ls).get j).isHidden = true
        · exact Or.inr hj
        · have hj' : ((afterCollision ls).get j).isHidden = false :=
            Bool.eq_false_iff.mpr hj
          have hint' : ((afterCollision ls).get j).bounds.intersects
              ((afterCollision ls).get i).bounds = true := by
            rw [Bounds.intersects_symm]; exact hint
          exact Or.inl (hPg j i hij hj' hint')
  · intro hpri hvis
    rcases lt_or_gt_of_ne (fun h => hne (Fin.ext h)) with hij | hij
    · exact hPg i j hij hvis hint
    · exact absurd (hsg j i hij) (not_le.mpr hpri)

/-- C1 witness: the amended statement applied to the two-label instance
`[labelA, labelB]` (priorities 3 and 2, intersecting boxes). -/
theorem c1_witness :
    (((afterCollision [labelA, labelB]).get idx0).isHidden = true ∨
        ((afterCollision [labelA, labelB]).get idx1).isHidden = true) ∧
      (labelPriority ((afterCollision [labelA, labelB]).get idx1) <
          labelPriority ((afterCollision [labelA, labelB]).get idx0) →
        ((afterCollision [labelA, labelB]).get idx0).isHidden = false →
        ((afterCollision [labelA, labelB]).get idx1).isHidden = true) :=
  c1_amended [labelA, labelB] idx0 idx1 (by with_unfolding_all decide)
    (by with_unfolding_all decide)

/-- C10: the label first in descending-priority order is never hidden by
the collision pass, so a non-empty label list keeps at least one visible
label. -/
theorem c10_first_label_visible (ls : List ScatterLabel) (hne : ls ≠ [])
    (h0 : ∀ l ∈ ls, l.isHidden = false) :
    (afterCollision ls).head?.map (fun l => l.isHidden) = some false ∧
      ∃ l ∈ afterCollision ls, l.isHidden = false := by
  have hstlen : (labelsByPriority ls).length = ls.length :=
    stableSortBy_length _ _ _
  have hstne : labelsByPriority ls ≠ [] := by
    intro h
    rw [h] at hstlen
    exact hne (List.length_eq_zero.mp hstlen.symm)
  obtain ⟨l1, rest, hcons⟩ := List.exists_cons_of_ne_nil hstne
  have hhead : (afterCollision ls).head? = (labelsByPriority ls).head? :=
    resolveCollisions_head _ _ _ _
  have hl1 : l1 ∈ ls := by
    have : l1 ∈ labelsByPriority ls := by rw [hcons]; exact List.mem_cons_self ..
    exact (mem_stableSortBy _ _).mp this
  have hl1vis : l1.isHidden = false := h0 l1 hl1
  have hhead' : (afterCollision ls).head? = some l1 := by
    rw [hhead, hcons]; rfl
  refine ⟨?_, l1, ?_, hl1vis⟩
  · rw [hhead', Option.map_some', hl1vis]
  · exact List.mem_of_mem_head? (by rw [hhead']; exact rfl)

/-- C10 witness: the two-label instance, all labels initially visible. -/
theorem c10_witness :
    (afterCollision [labelA, labelB]).head?.map (fun l => l.isHidden) =
        some false ∧
      ∃ l ∈ afterCollision [labelA, labelB], l.isHidden = false :=
  c10_first_label_visible [labelA, labelB] (by with_unfolding_all decide)
    (by with_unfolding_all decide)

/-! ## Pipeline decomposition lemmas -/

/-- Membership in `initialRenderData` is exactly being the build of some
input series. -/
theorem mem_initialRenderData {ctx : Ctx} {p : Props}
    {rs : ScatterRenderSeries} :
    rs ∈ initialRenderData ctx p ↔ ∃ d ∈ p.data, buildSeries ctx p d = rs := by
  rw [initialRenderData, mem_stableSortBy, List.mem_map]

theorem mem_applyHiddenAll {tags : List Nat} {rds : List ScatterRenderSeries}
    {off : Nat} {s : ScatterRenderSeries}
    (hs : s ∈ applyHiddenAll tags off rds) :
    ∃ off' s', s' ∈ rds ∧ s = applyHiddenToSeries tags off' s' := by
  induction rds generalizing off with
  | nil => simp [applyHiddenAll] at hs
  | cons a rest ih =>
    simp only [applyHiddenAll] at hs
    rcases List.mem_cons.mp hs with rfl | hs
    · exact ⟨off, a, List.mem_cons_self .., rfl⟩
    · obtain ⟨off', s', h1, h2⟩ := ih hs
      exact ⟨off', s', List.mem_cons_of_mem _ h1, h2⟩

/-- Every finalized render series is an input series taken through the
four stages: flags, labels, clamp, hidden write-back. -/
theorem mem_renderData_decomp {ctx : Ctx} {p : Props} {hk : Option String}
    {s : ScatterRenderSeries} (hs : s ∈ renderData ctx p hk) :
    ∃ s0 ∈ initialRenderData ctx p, ∃ tags off,
      s = applyHiddenToSeries tags off (clampSeries p.bounds
        (makeLabels ctx (isSubtleForeground p) (applyFlags p hk s0))) := by
  simp only [renderData] at hs
  obtain ⟨off, s3, hs3, hdec⟩ := mem_applyHiddenAll hs
  rw [List.mem_map] at hs3
  obtain ⟨s2, hs2, rfl⟩ := hs3
  rw [List.mem_map] at hs2
  obtain ⟨s1, hs1, rfl⟩ := hs2
  rw [List.mem_map] at hs1
  obtain ⟨s0, hs0, rfl⟩ := hs1
  rw [mem_stableSortBy] at hs0
  exact ⟨s0, hs0, _, off, hdec⟩

/-! ## C3: the font-size scale input -/

/-- C3, counterexample: with size domain `[0,10]`, a series of magnitude 4
holding a value of magnitude 2, the produced font size is
`fontScale 4 = 11.2`, not the claimed `fontScale 2 = 10.6`. -/
theorem c3_counterexample : ¬ claimC3 ctx0 props3 := by
  with_unfolding_all decide

/-- C3, amended: the per-value font size is the `[10,13]` linear scale
applied to the owning series' magnitude (`d.size || 1`) — the same for
every value of the series — not to the value's own magnitude. -/
theorem c3_fontSize_from_series_size (ctx : Ctx) (p : Props)
    (rs : ScatterRenderSeries) (hrs : rs ∈ initialRenderData ctx p) :
    ∃ d ∈ p.data, buildSeries ctx p d = rs ∧
      ∀ rv ∈ rs.values, rv.fontSize = fontScale p (jsOr d.size 1) := by
  obtain ⟨d, hd, hbd⟩ := mem_initialRenderData.mp hrs
  refine ⟨d, hd, hbd, ?_⟩
  intro rv hrv
  rw [← hbd] at hrv
  have hvals : (buildSeries ctx p d).values = d.values.map (buildValue ctx p d) := rfl
  rw [hvals, List.mem_map] at hrv
  obtain ⟨v, _, rfl⟩ := hrv
  rfl

/-- C3 witness: the amended statement at the concrete mismatching
series. -/
theorem c3_witness :
    ∃ d ∈ props3.data, buildSeries ctx0 props3 d = buildSeries ctx0 props3 seriesD ∧
      ∀ rv ∈ (buildSeries ctx0 props3 seriesD).values,
        rv.fontSize = fontScale props3 (jsOr d.size 1) :=
  c3_fontSize_from_series_size ctx0 props3 (buildSeries ctx0 props3 seriesD)
    (by with_unfolding_all decide)

/-! ## C9: the series-level size -/

/-- C9: in the finalized render data a hovered series' size is its last
value's computed pixel size plus one, and a non-hovered series' size is
exactly its last value's computed pixel size. -/
theorem c9_series_size (ctx : Ctx) (p : Props) (hk : Option String)
    (s : ScatterRenderSeries) (hs : s ∈ renderData ctx p hk)
    (_hne : s.values ≠ []) :
    (s.isHover = true →
        s.size = ((s.values.getLast?).getD dfltRV).size + 1) ∧
      (s.isHover = false →
        s.size = ((s.values.getLast?).getD dfltRV).size) := by
  obtain ⟨s0, hs0, tags, off, hdec⟩ := mem_renderData_decomp hs
  obtain ⟨d, hd, hbd⟩ := mem_initialRenderData.mp hs0
  have hvals : s.values = s0.values := by rw [hdec]; rfl
  have hhover : s.isHover = (hoverKeysOf p hk).contains s0.key := by
    rw [hdec]; rfl
  have hsize : s.size =
      if (hoverKeysOf p hk).contains s0.key then s0.size + 1 else s0.size := by
    rw [hdec]; rfl
  have hsize0 : s0.size = ((s0.values.getLast?).getD dfltRV).size := by
    rw [← hbd]; rfl
  constructor
  · intro hh
    rw [hhover] at hh
    rw [hsize, if_pos hh, hsize0, hvals]
  · intro hh
    rw [hhover] at hh
    rw [hsize, if_neg (by rw [hh]; exact Bool.false_ne_true), hsize0, hvals]

/-- C9 witness: a hovered single-value series (via the transient hover
key) and a non-hovered one. -/
theorem c9_witness :
    ((renderData ctx0 props2 (some "b")).headD
          (buildSeries ctx0 props2 seriesBig)).values ≠ [] ∧
      ((((renderData ctx0 props2 (some "b")).headD
            (buildSeries ctx0 props2 seriesBig)).isHover = true →
        ((renderData ctx0 props2 (some "b")).headD
            (buildSeries ctx0 props2 seriesBig)).size =
          ((((renderData ctx0 props2 (some "b")).headD
              (buildSeries ctx0 props2 seriesBig)).values.getLast?).getD
            dfltRV).size + 1) ∧
      (((renderData ctx0 props2 (some "b")).headD
            (buildSeries ctx0 props2 seriesBig)).isHover = false →
        ((renderData ctx0 props2 (some "b")).headD
            (buildSeries ctx0 props2 seriesBig)).size =
          ((((renderData ctx0 props2 (some "b")).headD
              (buildSeries ctx0 props2 seriesBig)).values.getLast?).getD
            dfltRV).size)) :=
  ⟨by with_unfolding_all decide,
    c9_series_size ctx0 props2 (some "b") _ (by with_unfolding_all decide)
      (by with_unfolding_all decide)⟩

/-! ## C2: background drawing order -/

theorem applyFlags_size (p : Props) (hk : Option String)
    (s : ScatterRenderSeries) :
    (applyFlags p hk s).size =
      if (hoverKeysOf p hk).contains s.key then s.size + 1 else s.size := rfl

theorem applyFlags_isForeground (p : Props) (hk : Option String)
    (s : ScatterRenderSeries) :
    (applyFlags p hk s).isForeground =
      ((hoverKeysOf p hk).contains s.key || p.focusKeys.contains s.key) := rfl

/-- Pairwise relations survive the hidden write-back stage when they are
compatible with it. -/
theorem pairwise_applyHiddenAll {R : ScatterRenderSeries →
      ScatterRenderSeries → Prop}
    (hR : ∀ tags off off' x y, R x y →
      R (applyHiddenToSeries tags off x) (applyHiddenToSeries tags off' y))
    (tags : List Nat) {rds : List ScatterRenderSeries}
    (h : rds.Pairwise R) :
    ∀ off, (applyHiddenAll tags off rds).Pairwise R := by
  induction h with
  | nil => intro off; simp [applyHiddenAll]
  | @cons a rest ha hrest ih =>
    intro off
    simp only [applyHiddenAll]
    refine List.Pairwise.cons ?_ (ih _)
    intro b hb
    obtain ⟨off', s', hs', rfl⟩ := mem_applyHiddenAll hb
    exact hR tags off off' _ _ (ha s' hs')

/-- C2, counterexample: two background series of different sizes are
drawn largest first (`_.sortBy(initialRenderData, d => -d.size)`), so the
later-drawn background series is the smaller one, not the larger. -/
theorem c2_counterexample : ¬ claimC2 ctx0 props2 none := by
  with_unfolding_all decide

/-- C2, amended: the finalized render data is ordered DESCENDING by
series pixel size over the background series — for every adjacent pair of
background series, the one drawn later is no larger than the one drawn
earlier (the source draws "the largest points first so that smaller ones
can sit on top of them"; the ascending sort of the claim exists only in
`initialRenderData`, which `renderData` re-sorts descending). -/
theorem c2_background_size_descending (ctx : Ctx) (p : Props)
    (hk : Option String) :
    List.Chain' (fun a b => b.size ≤ a.size)
      (backgroundGroups (renderData ctx p hk)) := by
  have h1 : (stableSortBy (fun d : ScatterRenderSeries => -d.size) qle
      (initialRenderData ctx p)).Pairwise (fun a b => b.size ≤ a.size) := by
    have h0 := pairwise_stableSortBy
      (fun d : ScatterRenderSeries => -d.size) qle qle_total qle_trans
      (initialRenderData ctx p)
    refine h0.imp ?_
    intro a b hab
    simp only [qle, decide_eq_true_eq] at hab
    linarith
  have h2 : ((stableSortBy (fun d : ScatterRenderSeries => -d.size) qle
      (initialRenderData ctx p)).map (applyFlags p hk)).Pairwise bgRel := by
    rw [List.pairwise_map]
    refine h1.imp ?_
    intro a b hab hfa hfb
    rw [applyFlags_isForeground] at hfa hfb
    have ha1 := (Bool.or_eq_false_iff.mp hfa).1
    have hb1 := (Bool.or_eq_false_iff.mp hfb).1
    have na : ¬((hoverKeysOf p hk).contains a.key = true) := by
      rw [ha1]; exact Bool.false_ne_true
    have nb : ¬((hoverKeysOf p hk).contains b.key = true) := by
      rw [hb1]; exact Bool.false_ne_true
    rw [applyFlags_size, if_neg nb, applyFlags_size, if_neg na]
    exact hab
  have h3 : (((stableSortBy (fun d : ScatterRenderSeries => -d.size) qle
      (initialRenderData ctx p)).map (applyFlags p hk)).map
        (makeLabels ctx (isSubtleForeground p))).Pairwise bgRel := by
    rw [List.pairwise_map]
    exact h2.imp (fun h => h)
  have h4 : ((((stableSortBy (fun d : ScatterRenderSeries => -d.size) qle
      (initialRenderData ctx p)).map (applyFlags p hk)).map
        (makeLabels ctx (isSubtleForeground p))).map
          (clampSeries p.bounds)).Pairwise bgRel := by
    rw [List.pairwise_map]
    exact h3.imp (fun h => h)
  have hrd : (renderData ctx p hk).Pairwise bgRel := by
    simp only [renderData]
    exact pairwise_applyHiddenAll (fun tags off off' x y h => h) _ h4 0
  have hbg : (backgroundGroups (renderData ctx p hk)).Pairwise bgRel :=
    List.Pairwise.sublist (List.filter_sublist _) hrd
  have hsz : (backgroundGroups (renderData ctx p hk)).Pairwise
      (fun a b => b.size ≤ a.size) := by
    refine List.Pairwise.imp_of_mem ?_ hbg
    intro a b hma hmb hab
    have ha : a.isForeground = false := by
      have := List.of_mem_filter hma
      simpa using this
    have hb : b.isForeground = false := by
      have := List.of_mem_filter hmb
      simpa using this
    exact hab ha hb
  exact hsz.chain'

/-! ## C6 and C7: the label synthesizer -/

/-- Elements of an `enumFrom` list are elements of the list. -/
theorem snd_mem_of_mem_enumFrom {α : Type} {q : Nat × α} :
    ∀ {n : Nat} {l : List α}, q ∈ l.enumFrom n → q.2 ∈ l := by
  intro n l
  induction l generalizing n with
  | nil => intro h; simp [List.enumFrom] at h
  | cons a as ih =>
    intro h
    simp only [List.enumFrom] at h
    rcases List.mem_cons.mp h with rfl | h
    · exact List.mem_cons_self ..
    · exact List.mem_cons_of_mem _ (ih h)

/-- A start label, when produced, is not an end label. -/
theorem makeStartLabel_isEnd {ctx : Ctx} {sub : Bool}
    {series : ScatterRenderSeries} {st : ScatterLabel}
    (h : makeStartLabel ctx sub series = some st) : st.isEnd = false := by
  unfold makeStartLabel at h
  split at h
  · exact absurd h (by simp)
  · obtain rfl := Option.some_injective _ h.symm
    rfl

/-- A start label is produced exactly for a foreground series with at
least two values. -/
theorem makeStartLabel_isSome (ctx : Ctx) (sub : Bool)
    (series : ScatterRenderSeries) :
    (makeStartLabel ctx sub series).isSome = true ↔
      (series.isForeground = true ∧ 2 ≤ series.values.length) := by
  unfold makeStartLabel
  split
  · rename_i hcond
    rw [Bool.or_eq_true, Bool.not_eq_true', decide_eq_true_eq] at hcond
    constructor
    · intro h; simp at h
    · intro ⟨hfg, hlen⟩
      rcases hcond with hc | hc
      · simp [hfg] at hc
      · omega
  · rename_i hcond
    rw [Bool.or_eq_true, Bool.not_eq_true', decide_eq_true_eq] at hcond
    push_neg at hcond
    obtain ⟨h1, h2⟩ := hcond
    constructor
    · intro _
      refine ⟨Bool.ne_false_iff.mp h1, by omega⟩
    · intro _
      rfl

/-- Mid labels are never end labels. -/
theorem makeMidLabels_isEnd {ctx : Ctx} {sub : Bool}
    {series : ScatterRenderSeries} {l : ScatterLabel}
    (h : l ∈ makeMidLabels ctx sub series) : l.isEnd = false := by
  unfold makeMidLabels at h
  split at h
  · simp at h
  · rw [List.mem_map] at h
    obtain ⟨q, _, rfl⟩ := h
    rfl

/-- A non-empty mid-label list needs a foreground series with at least
three values that is hovered or not in subtle mode. -/
theorem makeMidLabels_ne_nil {ctx : Ctx} {sub : Bool}
    {series : ScatterRenderSeries}
    (h : makeMidLabels ctx sub series ≠ []) :
    series.isForeground = true ∧ 3 ≤ series.values.length ∧
      (series.isHover = true ∨ sub = false) := by
  unfold makeMidLabels at h
  split at h
  · exact absurd rfl h
  · rename_i hcond
    rw [Bool.or_eq_true, Bool.or_eq_true, Bool.not_eq_true',
      decide_eq_true_eq, Bool.and_eq_true, Bool.not_eq_true'] at hcond
    push_neg at hcond
    obtain ⟨⟨h1, h2⟩, h3⟩ := hcond
    have hfg : series.isForeground = true := Bool.ne_false_iff.mp h1
    have hmap : ((series.values.drop 1).dropLast).enum ≠ [] := by
      intro hz
      exact h (by rw [hz]; rfl)
    have hlen3 : 3 ≤ series.values.length := by
      have hlz : ((series.values.drop 1).dropLast).length ≠ 0 := by
        intro hz
        exact hmap (by rw [List.length_eq_zero.mp hz]; rfl)
      rw [List.length_dropLast, List.length_drop] at hlz
      omega
    refine ⟨hfg, hlen3, ?_⟩
    by_cases hh : series.isHover = true
    · exact Or.inl hh
    · right
      have hhf : series.isHover = false := Bool.eq_false_iff.mpr hh
      cases hsub : sub with
      | false => rfl
      | true => exact absurd hsub (h3 hhf)

theorem isSome_map {α β : Type} (f : α → β) (x : Option α) :
    (x.map f).isSome = x.isSome := by cases x <;> rfl

/-- C6: every series (with a value) gets exactly one end label, carrying
the entity name, the last value's font size scaled by 1.3 (foreground) /
1.2 (subtle foreground) / 1.1 (otherwise), anchored past the last point
along the direction of travel at distance `size + 1` (single value) or 5
pixels. -/
theorem c6_end_label (ctx : Ctx) (p : Props) (hk : Option String)
    (s : ScatterRenderSeries) (hs : s ∈ renderData ctx p hk)
    (_hne : s.values ≠ []) :
    s.offsetVector = seriesOffsetVector s ∧
    ∃ e, s.endLabel = some e ∧
      (allLabelsOf s).countP (fun l => l.isEnd) = 1 ∧
      e.text = s.text ∧
      e.fontSize = ((s.values.getLast?).getD dfltRV).fontSize *
        (if s.isForeground = true then
          (if isSubtleForeground p = true then 12/10 else 13/10)
         else 11/10) ∧
      e.pos = ((s.values.getLast?).getD dfltRV).position.add
        (((seriesOffsetVector s).normalize ctx.sqrt).times
          (if s.values.length = 1 then
            ((s.values.getLast?).getD dfltRV).size + 1 else 5)) := by
  obtain ⟨s0, hs0, tags, off, hdec⟩ := mem_renderData_decomp hs
  set s1 := applyFlags p hk s0 with hs1
  have hvals : s.values = s1.values := by rw [hdec]; rfl
  have htext : s.text = s1.text := by rw [hdec]; rfl
  have hfg : s.isForeground = s1.isForeground := by rw [hdec]; rfl
  have hov : s.offsetVector = seriesOffsetVector s1 := by rw [hdec]; rfl
  have hsov : seriesOffsetVector s = seriesOffsetVector s1 := by
    unfold seriesOffsetVector
    rw [hvals]
  have hstart : s.startLabel =
      ((makeStartLabel ctx (isSubtleForeground p) s1).map
        (fun l => clampLabel p.bounds l)).map
          (fun l => if tags.contains (off + 0) then hideLabel l else l) := by
    rw [hdec]; rfl
  have hend : ∃ c : Bool, s.endLabel = some
      (if c then hideLabel (clampLabel p.bounds
        (makeEndLabel ctx (isSubtleForeground p) s1))
       else clampLabel p.bounds
        (makeEndLabel ctx (isSubtleForeground p) s1)) := by
    rw [hdec]
    exact ⟨_, rfl⟩
  obtain ⟨c, hend⟩ := hend
  have hmid : ∀ l ∈ s.midLabels, l.isEnd = false := by
    rw [hdec]
    intro l hl
    obtain ⟨q, hq, rfl⟩ := List.mem_map.mp hl
    have hq2 := snd_mem_of_mem_enumFrom hq
    obtain ⟨q', hq', hc⟩ := List.mem_map.mp hq2
    have hq'2 := snd_mem_of_mem_enumFrom hq'
    have hq'end : (q'.2 : ScatterLabel).isEnd = false :=
      makeMidLabels_isEnd hq'2
    have hcend : (q.2 : ScatterLabel).isEnd = false := by
      rw [← hc]; exact hq'end
    beta_reduce
    split <;> split <;> exact hcend
  refine ⟨by rw [hov, hsov], ?_⟩
  refine ⟨_, hend, ?_, ?_, ?_, ?_⟩
  · have hsplit : allLabelsOf s =
        s.startLabel.toList ++ s.midLabels ++ s.endLabel.toList := rfl
    rw [hsplit, List.countP_append, List.countP_append]
    have cstart : s.startLabel.toList.countP (fun l => l.isEnd) = 0 := by
      rw [List.countP_eq_zero]
      intro l hl
      rw [hstart] at hl
      rcases hX : makeStartLabel ctx (isSubtleForeground p) s1 with - | st
      · rw [hX] at hl; simp at hl
      · rw [hX] at hl
        simp only [Option.map_some', Option.toList_some,
          List.mem_singleton] at hl
        subst hl
        have hst := makeStartLabel_isEnd hX
        have hkeep : (if tags.contains (off + 0) = true then
            hideLabel (clampLabel p.bounds st)
            else clampLabel p.bounds st).isEnd = st.isEnd := by
          by_cases hc2 : tags.contains (off + 0) = true
          · rw [if_pos hc2]; rfl
          · rw [if_neg hc2]; rfl
        simp only [hkeep, hst]
        simp
    have cmid : s.midLabels.countP (fun l => l.isEnd) = 0 := by
      rw [List.countP_eq_zero]
      intro l hl
      simp [hmid l hl]
    have cend : s.endLabel.toList.countP (fun l => l.isEnd) = 1 := by
      rw [hend]
      have : (if c then hideLabel (clampLabel p.bounds
          (makeEndLabel ctx (isSubtleForeground p) s1))
          else clampLabel p.bounds
            (makeEndLabel ctx (isSubtleForeground p) s1)).isEnd = true := by
        cases c
        · rfl
        · rfl
      simp [List.countP_cons, this]
    rw [cstart, cmid, cend]
  · cases c
    · rw [htext]
      rfl
    · rw [htext]
      rfl
  · cases c
    · rw [hvals, hfg]
      rfl
    · rw [hvals, hfg]
      rfl
  · cases c
    · rw [hsov, hvals]
      rfl
    · rw [hsov, hvals]
      rfl

/-- C6 witness: the single foreground (focused) series of a concrete
chart. -/
theorem c6_witness :
    ((renderData ctx0 props3 none).headD (buildSeries ctx0 props3 seriesD)).values
        ≠ [] ∧
      (((renderData ctx0 props3 none).headD
          (buildSeries ctx0 props3 seriesD)).offsetVector =
        seriesOffsetVector ((renderData ctx0 props3 none).headD
          (buildSeries ctx0 props3 seriesD)) ∧
      ∃ e, ((renderData ctx0 props3 none).headD
          (buildSeries ctx0 props3 seriesD)).endLabel = some e ∧
        (allLabelsOf ((renderData ctx0 props3 none).headD
          (buildSeries ctx0 props3 seriesD))).countP (fun l => l.isEnd) = 1 ∧
        e.text = ((renderData ctx0 props3 none).headD
          (buildSeries ctx0 props3 seriesD)).text ∧
        e.fontSize = ((((renderData ctx0 props3 none).headD
            (buildSeries ctx0 props3 seriesD)).values.getLast?).getD
              dfltRV).fontSize *
          (if ((renderData ctx0 props3 none).headD
              (buildSeries ctx0 props3 seriesD)).isForeground = true then
            (if isSubtleForeground props3 = true then 12/10 else 13/10)
           else 11/10) ∧
        e.pos = ((((renderData ctx0 props3 none).headD
            (buildSeries ctx0 props3 seriesD)).values.getLast?).getD
              dfltRV).position.add
          (((seriesOffsetVector ((renderData ctx0 props3 none).headD
              (buildSeries ctx0 props3 seriesD))).normalize ctx0.sqrt).times
            (if ((renderData ctx0 props3 none).headD
                (buildSeries ctx0 props3 seriesD)).values.length = 1 then
              ((((renderData ctx0 props3 none).headD
                (buildSeries ctx0 props3 seriesD)).values.getLast?).getD
                  dfltRV).size + 1
             else 5))) :=
  ⟨by with_unfolding_all decide,
    c6_end_label ctx0 props3 none _ (by with_unfolding_all decide)
      (by with_unfolding_all decide)⟩

/-- C7: a start label is produced exactly for foreground series with at
least 2 values; mid labels exist only for foreground series with at least
3 values that are hovered or not in subtle-foreground mode; single-value
series get neither. -/
theorem c7_start_mid_labels (ctx : Ctx) (p : Props) (hk : Option String)
    (s : ScatterRenderSeries) (hs : s ∈ renderData ctx p hk) :
    (s.startLabel.isSome = true ↔
      (s.isForeground = true ∧ 2 ≤ s.values.length)) ∧
    (s.midLabels ≠ [] →
      (s.isForeground = true ∧ 3 ≤ s.values.length ∧
        (s.isHover = true ∨ isSubtleForeground p = false))) ∧
    (s.values.length = 1 → s.startLabel = none ∧ s.midLabels = []) := by
  obtain ⟨s0, hs0, tags, off, hdec⟩ := mem_renderData_decomp hs
  set s1 := applyFlags p hk s0 with hs1
  have hvals : s.values = s1.values := by rw [hdec]; rfl
  have hfg : s.isForeground = s1.isForeground := by rw [hdec]; rfl
  have hhov : s.isHover = s1.isHover := by rw [hdec]; rfl
  have hstart : s.startLabel =
      ((makeStartLabel ctx (isSubtleForeground p) s1).map
        (fun l => clampLabel p.bounds l)).map
          (fun l => if tags.contains (off + 0) then hideLabel l else l) := by
    rw [hdec]; rfl
  have hsome : s.startLabel.isSome =
      (makeStartLabel ctx (isSubtleForeground p) s1).isSome := by
    rw [hstart, isSome_map, isSome_map]
  have hmlen : s.midLabels.length =
      (makeMidLabels ctx (isSubtleForeground p) s1).length := by
    rw [hdec]
    show (List.map _ (List.enum (List.map _ (List.enum _)))).length = _
    rw [List.length_map, List.enum_length, List.length_map, List.enum_length]
    rfl
  constructor
  · rw [hsome, makeStartLabel_isSome, ← hfg, ← hvals]
  constructor
  · intro hne
    have hne' : makeMidLabels ctx (isSubtleForeground p) s1 ≠ [] := by
      intro hz
      apply hne
      rw [← List.length_eq_zero, hmlen, hz]
      rfl
    obtain ⟨h1, h2, h3⟩ := makeMidLabels_ne_nil hne'
    exact ⟨hfg ▸ h1, hvals ▸ h2, hhov ▸ h3⟩
  · intro hone
    constructor
    · rw [← Option.not_isSome_iff_eq_none, hsome, makeStartLabel_isSome]
      rintro ⟨-, hlen⟩
      rw [← hvals, hone] at hlen
      omega
    · by_contra hne
      obtain ⟨-, hlen, -⟩ := makeMidLabels_ne_nil (by
        intro hz
        apply hne
        rw [← List.length_eq_zero, hmlen, hz]
        rfl)
      rw [← hvals, hone] at hlen
      omega

/-- C7 witness: the single-value background series of a concrete chart
has no start or mid label. -/
theorem c7_witness :
    (((renderData ctx0 props2 none).headD
        (buildSeries ctx0 props2 seriesBig)).startLabel.isSome = true ↔
      (((renderData ctx0 props2 none).headD
          (buildSeries ctx0 props2 seriesBig)).isForeground = true ∧
        2 ≤ ((renderData ctx0 props2 none).headD
          (buildSeries ctx0 props2 seriesBig)).values.length)) ∧
    (((renderData ctx0 props2 none).headD
        (buildSeries ctx0 props2 seriesBig)).midLabels ≠ [] →
      (((renderData ctx0 props2 none).headD
          (buildSeries ctx0 props2 seriesBig)).isForeground = true ∧
        3 ≤ ((renderData ctx0 props2 none).headD
          (buildSeries ctx0 props2 seriesBig)).values.length ∧
        (((renderData ctx0 props2 none).headD
          (buildSeries ctx0 props2 seriesBig)).isHover = true ∨
          isSubtleForeground props2 = false))) ∧
    (((renderData ctx0 props2 none).headD
        (buildSeries ctx0 props2 seriesBig)).values.length = 1 →
      ((renderData ctx0 props2 none).headD
        (buildSeries ctx0 props2 seriesBig)).startLabel = none ∧
      ((renderData ctx0 props2 none).headD
        (buildSeries ctx0 props2 seriesBig)).midLabels = []) :=
  c7_start_mid_labels ctx0 props2 none _ (by with_unfolding_all decide)

/-! ## C8: the hover-key invariant -/

/-- Every finalized render series carries the key of some input series. -/
theorem renderData_key {ctx : Ctx} {p : Props} {hk : Option String}
    {s : ScatterRenderSeries} (hs : s ∈ renderData ctx p hk) :
    ∃ d ∈ p.data, s.key = d.key := by
  obtain ⟨s0, hs0, tags, off, hdec⟩ := mem_renderData_decomp hs
  obtain ⟨d, hd, hbd⟩ := mem_initialRenderData.mp hs0
  refine ⟨d, hd, ?_⟩
  rw [hdec, ← hbd]
  rfl

/-- C8, counterexample: `onMouseMove` sets the hover key to the only
series' key; a subsequent input-data change to a different series list
leaves the stale hover key in place, which is then the key of no series
in the current input list. -/
theorem c8_counterexample :
    ¬ hoverInv (run ctx0 st0
      [UIEvent.mouseMove Vector2.zero, UIEvent.setData [seriesBig]]) := by
  with_unfolding_all decide

/-- C8, amended: the hover-key invariant (absent, or the key of a series
in the current input list) holds in every state reachable by
`onMouseMove` / `onMouseLeave` / `onClick` from a state satisfying it —
but an input-data change is not covered: the controller never clears or
revalidates the hover key when `props.data` changes, so the key may go
stale until the next pointer event (`c8_counterexample`). -/
theorem c8_hover_inv_preserved (ctx : Ctx) (st : CompState)
    (evs : List UIEvent) (h0 : hoverInv st)
    (hevs : ∀ e ∈ evs, isSetData e = false) :
    hoverInv (run ctx st evs) := by
  induction evs generalizing st with
  | nil => exact h0
  | cons e rest ih =>
    have hstep : hoverInv (step ctx st e) := by
      cases e with
      | mouseMove m =>
        show hoverInv (match closestSeries ctx st.props st.hoverKey m with
          | some sw => { st with hoverKey := some sw.key }
          | none => { st with hoverKey := none })
        cases hcl : closestSeries ctx st.props st.hoverKey m with
        | none => exact Or.inl rfl
        | some sw =>
          right
          have hmem : sw ∈ renderData ctx st.props st.hoverKey := by
            have h1 : sw ∈ stableSortBy
                (seriesDistance (isConnected st.props) m) optLE
                (renderData ctx st.props st.hoverKey) :=
              List.mem_of_mem_head? (by
                rw [show (stableSortBy
                  (seriesDistance (isConnected st.props) m) optLE
                  (renderData ctx st.props st.hoverKey)).head? =
                    closestSeries ctx st.props st.hoverKey m from rfl, hcl]
                rfl)
            exact (mem_stableSortBy _ _).mp h1
          obtain ⟨d, hd, hkey⟩ := renderData_key hmem
          rw [List.mem_map]
          refine ⟨d, hd, ?_⟩
          show some d.key = some sw.key
          rw [hkey]
      | mouseLeave => exact Or.inl rfl
      | click => exact h0
      | setData d =>
        exact absurd (hevs _ (List.mem_cons_self ..)) (by simp [isSetData])
    exact ih _ hstep (fun e' he' => hevs e' (List.mem_cons_of_mem _ he'))

/-- C8 witness: a pointer-event-only run from the initial state. -/
theorem c8_witness :
    hoverInv st0 ∧
      (∀ e ∈ [UIEvent.mouseMove Vector2.zero, UIEvent.mouseLeave],
        isSetData e = false) ∧
      hoverInv (run ctx0 st0
        [UIEvent.mouseMove Vector2.zero, UIEvent.mouseLeave]) :=
  ⟨Or.inl rfl,
    by
      intro e he
      rcases List.mem_cons.mp he with rfl | he
      · rfl
      rcases List.mem_cons.mp he with rfl | he
      · rfl
      · exact absurd he (List.not_mem_nil e),
    c8_hover_inv_preserved ctx0 st0 _ (Or.inl rfl)
      (by
        intro e he
        rcases List.mem_cons.mp he with rfl | he
        · rfl
        rcases List.mem_cons.mp he with rfl | he
        · rfl
        · exact absurd he (List.not_mem_nil e))⟩

end OwidScatter
